import Mathlib

/-!
# Verification of the AITA orientation-field analysis toolbox

Shallow embedding of `src/aita.py` (class `aita`): per-pixel Euler-angle
fields (`phi1`, `phi`), a quality field (`qua`), a binary grain-boundary
mask (`micro`) and a grain-label field (`grains`, NaN at boundaries).

NaN-able float entries are modelled as `Option α` over a linear ordered
field `α` (instantiated at `ℚ` for executable witnesses and at `ℝ` where
`π` and `sqrt` are involved); NaN is `none` and propagates through
arithmetic exactly as IEEE NaN does through the numpy operations used by
the source.  2-D numpy arrays are modelled as a `Grid`: explicit
dimensions plus a total data function; numpy fancy-indexing writes
restrict to in-range indices.
-/

namespace AitaModel

/-- A 2-D array: `rows × cols`, with a total data function (reads outside
the range never occur in the modelled code paths). -/
structure Grid (α : Type) where
  rows : ℕ
  cols : ℕ
  data : ℕ → ℕ → α

/-- Model of `np.mod x m` for floats: `x - m * floor (x / m)`. -/
def amod {α : Type} [LinearOrderedField α] [FloorRing α] (x m : α) : α :=
  x - m * (⌊x / m⌋ : ℤ)

/-- The full state of an `aita` object. -/
structure AitaData (α : Type) where
  phi1 : Grid (Option α)
  phi : Grid (Option α)
  qua : Grid α
  micro : Grid ℕ
  grains : Grid (Option ℕ)

/-- Row-major list of all index pairs of an `r × c` array, the order in
which `np.where` returns indices. -/
def rowMajor (r c : ℕ) : List (ℕ × ℕ) :=
  ((List.range r).map (fun i => (List.range c).map (fun j => (i, j)))).flatten

/-- Lines 74–77 of `aita.__init__`: the external `micro2d.grain_label`
collaborator returns an integer label grid (parameter `labels`); the
constructor converts it to float and overwrites every pixel where
`micro == 1` with NaN. -/
def grainLabelToGrains (labels : Grid ℕ) (micro : Grid ℕ) : Grid (Option ℕ) :=
  ⟨labels.rows, labels.cols, fun i j => if micro.data i j = 1 then none else some (labels.data i j)⟩

/-- The constructor `aita.__init__`: store the four raw fields and build the grain-label
field from the boundary mask. -/
def aita_init {α : Type} (phi1_field phi_field : Grid (Option α)) (qua_field : Grid α)
    (micro_field : Grid ℕ) (labels : Grid ℕ) : AitaData α :=
  ⟨phi1_field, phi_field, qua_field, micro_field, grainLabelToGrains labels micro_field⟩

/-- Window extraction `g[ymin:ymax, xmin:xmax]`. -/
def cropGrid {β : Type} (g : Grid β) (ymin ymax xmin xmax : ℕ) : Grid β :=
  ⟨ymax - ymin, xmax - xmin, fun i j => g.data (ymin + i) (xmin + j)⟩

/-- The method `aita.crop` (data part, the interactive corner selection supplies
`ymin ymax xmin xmax`): crop the four raw fields, re-run the external
grain labeller on the cropped mask (parameter `labels`), and overwrite
boundary pixels of the label field with NaN (lines 117–120). -/
def crop {α : Type} (s : AitaData α) (ymin ymax xmin xmax : ℕ) (labels : Grid ℕ) : AitaData α :=
  let m := cropGrid s.micro ymin ymax xmin xmax
  ⟨cropGrid s.phi1 ymin ymax xmin xmax, cropGrid s.phi ymin ymax xmin xmax,
    cropGrid s.qua ymin ymax xmin xmax, m, grainLabelToGrains labels m⟩

/-- Model of `np.fliplr`: reverse each row. -/
def flipGridLR {β : Type} (g : Grid β) : Grid β :=
  ⟨g.rows, g.cols, fun i j => g.data i (g.cols - 1 - j)⟩

/-- Model of `np.flipud`: reverse the rows. -/
def flipGridUD {β : Type} (g : Grid β) : Grid β :=
  ⟨g.rows, g.cols, fun i j => g.data (g.rows - 1 - i) j⟩

/-- Elementwise map over a grid. -/
def gridMap {β γ : Type} (f : β → γ) (g : Grid β) : Grid γ :=
  ⟨g.rows, g.cols, fun i j => f (g.data i j)⟩

/-- The method `aita.fliplr` (lines 131–136): flip every field left-right and set
`phi1 ← (π − phi1) mod 2π`; `pi` is the mathematical constant of the
value field (`Real.pi` at `ℝ`).  `Option.map` encodes that
`np.mod(π − NaN, 2π)` is NaN. -/
def fliplrA {α : Type} [LinearOrderedField α] [FloorRing α] (pi : α) (s : AitaData α) :
    AitaData α :=
  { phi := flipGridLR s.phi,
    phi1 := gridMap (Option.map (fun x => amod (pi - x) (2 * pi))) (flipGridLR s.phi1),
    qua := flipGridLR s.qua,
    micro := flipGridLR s.micro,
    grains := flipGridLR s.grains }

/-- The method `aita.rot180` (lines 147–152): flip every field up-down and
left-right and set `phi1 ← (π + phi1) mod 2π`. -/
def rot180A {α : Type} [LinearOrderedField α] [FloorRing α] (pi : α) (s : AitaData α) :
    AitaData α :=
  { phi := flipGridUD (flipGridLR s.phi),
    phi1 := gridMap (Option.map (fun x => amod (pi + x) (2 * pi))) (flipGridUD (flipGridLR s.phi1)),
    qua := flipGridUD (flipGridLR s.qua),
    micro := flipGridUD (flipGridLR s.micro),
    grains := flipGridUD (flipGridLR s.grains) }

/-- The method `aita.filter` (lines 164–167): `x = np.where(self.qua.field < value)`
then `phi.field[x] = NaN; phi1.field[x] = NaN`.  `np.where` only yields
in-range indices, hence the bound conditions. -/
def filterQ {α : Type} [LinearOrderedField α] (s : AitaData α) (value : α) : AitaData α :=
  { s with
    phi := ⟨s.phi.rows, s.phi.cols, fun i j =>
      if i < s.qua.rows ∧ j < s.qua.cols ∧ s.qua.data i j < value then none
      else s.phi.data i j⟩,
    phi1 := ⟨s.phi1.rows, s.phi1.cols, fun i j =>
      if i < s.qua.rows ∧ j < s.qua.cols ∧ s.qua.data i j < value then none
      else s.phi1.data i j⟩ }

/-- Model of `np.nanmean` of a 1-D collection: arithmetic mean of the non-NaN
entries, NaN when none are defined. -/
def nanmean {α : Type} [LinearOrderedField α] (xs : List (Option α)) : Option α :=
  if (xs.filterMap id).isEmpty then none
  else some ((xs.filterMap id).sum / (xs.filterMap id).length)

/-- Model of `np.where(self.grains.field == i)` in row-major order: in-range
pixels carrying the grain label `l` (NaN labels compare unequal to every
number). -/
def labelPositions {α : Type} (s : AitaData α) (l : ℕ) : List (ℕ × ℕ) :=
  (rowMajor s.grains.rows s.grains.cols).filter (fun p => s.grains.data p.1 p.2 = some l)

/-- Values of an `Option`-valued grid at a list of positions. -/
def fieldVals {α : Type} (g : Grid (Option α)) (ps : List (ℕ × ℕ)) : List (Option α) :=
  ps.map (fun p => g.data p.1 p.2)

/-- The fancy-indexing write `g[np.where(grains == l)] = v`: overwrite
every in-range pixel labelled `l` with the scalar `v`. -/
def setWhereLabel {α : Type} (g : Grid (Option α)) (grains : Grid (Option ℕ)) (l : ℕ)
    (v : Option α) : Grid (Option α) :=
  ⟨g.rows, g.cols, fun a b =>
    if a < grains.rows ∧ b < grains.cols ∧ grains.data a b = some l then v else g.data a b⟩

/-- One iteration of the `mean_grain` loop body (lines 181–185) for grain
label `i`: replace `phi` then `phi1` at every pixel of grain `i` with the
`nanmean` of the respective values over the grain. -/
def grainUpdate {α : Type} [LinearOrderedField α] (s : AitaData α) (i : ℕ) : AitaData α :=
  { s with
    phi := setWhereLabel s.phi s.grains i (nanmean (fieldVals s.phi (labelPositions s i))),
    phi1 := setWhereLabel s.phi1 s.grains i (nanmean (fieldVals s.phi1 (labelPositions s i))) }

/-- Model of `int(np.nanmax(self.grains.field))` (line 178): the largest defined
grain label present in the field (the labels are whole numbers). -/
def nbGrain {α : Type} (s : AitaData α) : ℕ :=
  (((rowMajor s.grains.rows s.grains.cols).filterMap
    (fun p => s.grains.data p.1 p.2))).foldr max 0

/-- The method `aita.mean_grain` (lines 177–185): loop `for i in xrange(nb_grain+1)`
applying `grainUpdate`. -/
def mean_grain {α : Type} [LinearOrderedField α] (s : AitaData α) : AitaData α :=
  (List.range (nbGrain s + 1)).foldl grainUpdate s

/-- Donor index rule of the healing pass in `aita.craft` (lines 232–242):
`i + 1` on the first row/column, `i − 1` otherwise. -/
def donor (i : ℕ) : ℕ := if i = 0 then i + 1 else i - 1

/-- Model of `idx = np.where(np.isnan(self.grains.field))` (lines 226/248):
row-major positions of the NaN-labelled pixels. -/
def healIdx (g : Grid (Option ℕ)) : List (ℕ × ℕ) :=
  (rowMajor g.rows g.cols).filter (fun p => g.data p.1 p.2 = none)

/-- Single-pixel array write `g[p] = v`. -/
def writeG {β : Type} (g : Grid β) (p : ℕ × ℕ) (v : β) : Grid β :=
  ⟨g.rows, g.cols, fun a b => if a = p.1 ∧ b = p.2 then v else g.data a b⟩

/-- Body of the `for` loop inside `aita.craft`'s healing `while`
(lines 230–246): copy `phi`, `phi1` and the grain label from the donor
pixel `(donor i, donor j)` of the current state into pixel `(i, j)`. -/
def healPassStep {α : Type} (s : AitaData α) (p : ℕ × ℕ) : AitaData α :=
  let k := donor p.1
  let kk := donor p.2
  { s with
    phi := writeG s.phi p (s.phi.data k kk),
    phi1 := writeG s.phi1 p (s.phi1.data k kk),
    grains := writeG s.grains p (s.grains.data k kk) }

/-- One full pass of the healing `while` loop in `aita.craft`: iterate
the copy step over the NaN positions recorded at the start of the pass,
updating the fields sequentially. -/
def healPass {α : Type} (s : AitaData α) : AitaData α :=
  (healIdx s.grains).foldl healPassStep s

/-- NaN-propagating product `np.multiply` of two scalar samples. -/
def omul {α : Type} [Mul α] : Option α → Option α → Option α
  | some x, some y => some (x * y)
  | _, _ => none

/-- The component `xc = cos(azi) * sin(col)` with `azi = (phi1 − π/2) mod 2π`
(`plotpdf` lines 426–430); NaN in either angle propagates. -/
noncomputable def xcOf (phi1 phi : Option ℝ) : Option ℝ :=
  match phi1, phi with
  | some a, some c => some (Real.cos (amod (a - Real.pi / 2) (2 * Real.pi)) * Real.sin c)
  | _, _ => none

/-- The component `yc = sin(azi) * sin(col)` (`plotpdf` line 431). -/
noncomputable def ycOf (phi1 phi : Option ℝ) : Option ℝ :=
  match phi1, phi with
  | some a, some c => some (Real.sin (amod (a - Real.pi / 2) (2 * Real.pi)) * Real.sin c)
  | _, _ => none

/-- The component `zc = cos(col)` (`plotpdf` line 432). -/
noncomputable def zcOf (phi : Option ℝ) : Option ℝ := Option.map Real.cos phi

/-- The six distinct entries of the symmetric orientation tensor built by
`plotpdf` (lines 436–443); an entry is `none` when the corresponding
`np.nanmean` had no defined sample (NaN). -/
structure OrientationTensor where
  a11 : Option ℝ
  a22 : Option ℝ
  a33 : Option ℝ
  a12 : Option ℝ
  a13 : Option ℝ
  a23 : Option ℝ

/-- Lines 426–443 of `plotpdf`: convert each `(phi1, phi)` sample to c-axis
components and take `np.nanmean` of the pairwise products (the
`np.float128` accumulation of the source is exact real arithmetic
here). -/
noncomputable def computeOrientationTensor (samples : List (Option ℝ × Option ℝ)) :
    OrientationTensor :=
  let xc := samples.map (fun s => xcOf s.1 s.2)
  let yc := samples.map (fun s => ycOf s.1 s.2)
  let zc := samples.map (fun s => zcOf s.2)
  { a11 := nanmean (List.zipWith omul xc xc)
    a22 := nanmean (List.zipWith omul yc yc)
    a33 := nanmean (List.zipWith omul zc zc)
    a12 := nanmean (List.zipWith omul xc yc)
    a13 := nanmean (List.zipWith omul xc zc)
    a23 := nanmean (List.zipWith omul yc zc) }

/-- The finiteness guard `_assertFinite` that `np.linalg.eig` runs on its
input (`plotpdf` line 447 calls `np.linalg.eig(orientation_tensor)`):
when any tensor entry is NaN the call raises the generic
`numpy.linalg.LinAlgError("Array must not contain infs or NaNs")`. -/
def tensorAllFinite (t : OrientationTensor) : Bool :=
  t.a11.isSome && t.a22.isSome && t.a33.isSome && t.a12.isSome && t.a13.isSome && t.a23.isSome

/-- Model of `np.int32` applied to a float: C-style truncation toward zero. -/
def truncToZero {α : Type} [LinearOrderedField α] [FloorRing α] (x : α) : ℤ :=
  if 0 ≤ x then ⌊x⌋ else ⌈x⌉

/-- Lines 604–608 of `misorientation_profile`:
`yy = [pos[0][0], pos[1][0]] / res`, `xx = [pos[0][1], pos[1][1]] / res`,
`nb_pixel = np.int32(np.sqrt((xx[1]-xx[0])**2 + (yy[1]-yy[0])**2))`. -/
noncomputable def nb_pixel (pos : (ℝ × ℝ) × (ℝ × ℝ)) (res : ℝ) : ℤ :=
  truncToZero (Real.sqrt ((pos.2.2 / res - pos.1.2 / res) ^ 2 +
    (pos.2.1 / res - pos.1.1 / res) ^ 2))

/-- The spec's words for C6: "the Euclidean distance in pixels between
the two endpoints" — physical Euclidean distance divided by the spatial
resolution.  Kept separate from `nb_pixel` (which is translated from the
source) so the two can be compared. -/
noncomputable def specPixelDistance (pos : (ℝ × ℝ) × (ℝ × ℝ)) (res : ℝ) : ℝ :=
  Real.sqrt ((pos.2.2 - pos.1.2) ^ 2 + (pos.2.1 - pos.1.1) ^ 2) / res

/-- Dot product of 3-vectors (the `ori[0] * np.transpose(ori[i])` matrix
product of line 630). -/
def dot3 {α : Type} [CommRing α] (v w : α × α × α) : α :=
  v.1 * w.1 + v.2.1 * w.2.1 + v.2.2 * w.2.2

/-- Negation of a 3-vector. -/
def neg3 {α : Type} [CommRing α] (v : α × α × α) : α × α × α :=
  (-v.1, -v.2.1, -v.2.2)

/-- Misorientation angle in degrees between two c-axis vectors,
`np.arccos(np.abs(v · w)) * 180 / π` (`misorientation_profile`
lines 630 and 633). -/
noncomputable def misAngleDeg (v w : ℝ × ℝ × ℝ) : ℝ :=
  Real.arccos |dot3 v w| * 180 / Real.pi

/-- The boundary invariant of C8: every in-range pixel whose
microstructure mask is 1 (grain boundary) has a NaN grain label. -/
def BoundaryInv {α : Type} (s : AitaData α) : Prop :=
  ∀ i j, i < s.micro.rows → j < s.micro.cols → s.micro.data i j = 1 → s.grains.data i j = none

/-! ## Concrete demonstration states used by scenario parts and witnesses -/

/-- A one-pixel real-valued state for the C5 witness, with `phi1 = 0`. -/
noncomputable def flipDemo : AitaData ℝ :=
  ⟨⟨1, 1, fun _ _ => some 0⟩, ⟨1, 1, fun _ _ => some 0⟩, ⟨1, 1, fun _ _ => 0⟩,
    ⟨1, 1, fun _ _ => 0⟩, ⟨1, 1, fun _ _ => some 0⟩⟩

/-- A sample state for the filter witnesses: one pixel below the
threshold 50, one exactly at it. -/
def filterDemo : AitaData ℚ :=
  ⟨⟨1, 2, fun _ j => some (j : ℚ)⟩, ⟨1, 2, fun _ j => some (10 + j : ℚ)⟩,
    ⟨1, 2, fun _ j => if j = 0 then 20 else 50⟩, ⟨1, 2, fun _ _ => 0⟩,
    ⟨1, 2, fun _ _ => some 0⟩⟩

/-- A 4×4 state with a single interior boundary pixel at `(1,1)`: the
scenario of C3.  Orientation values are chosen pairwise distinct so the
donor can be identified. -/
def healDemo44 : AitaData ℚ :=
  ⟨⟨4, 4, fun i j => if i = 1 ∧ j = 1 then none else some (10 * (i : ℚ) + j)⟩,
    ⟨4, 4, fun i j => if i = 1 ∧ j = 1 then none else some (100 + 10 * (i : ℚ) + j)⟩,
    ⟨4, 4, fun _ _ => 100⟩,
    ⟨4, 4, fun i j => if i = 1 ∧ j = 1 then 1 else 0⟩,
    ⟨4, 4, fun i j => if i = 1 ∧ j = 1 then none else some 0⟩⟩

/-- The failing input of C1: a 2×2 field whose grain-label field is
entirely NaN (every pixel is boundary). -/
def allNaN22 : AitaData ℚ :=
  ⟨⟨2, 2, fun _ _ => none⟩, ⟨2, 2, fun _ _ => none⟩, ⟨2, 2, fun _ _ => 0⟩,
    ⟨2, 2, fun _ _ => 1⟩, ⟨2, 2, fun _ _ => none⟩⟩

/-- The two-grain scenario of C4: a 1×3 field, label 0 carrying
`phi1 ∈ {0, 1/5}` and label 1 carrying `phi1 = 3`. -/
def meanDemo13 : AitaData ℚ :=
  ⟨⟨1, 3, fun _ j => if j = 0 then some 0 else if j = 1 then some (1 / 5) else some 3⟩,
    ⟨1, 3, fun _ _ => some 0⟩, ⟨1, 3, fun _ _ => 100⟩, ⟨1, 3, fun _ _ => 0⟩,
    ⟨1, 3, fun _ j => if j ≤ 1 then some 0 else some 1⟩⟩

/-- A boundary-free 1×1 state used to witness C8. -/
def invDemo : AitaData ℚ :=
  ⟨⟨1, 1, fun _ _ => some 0⟩, ⟨1, 1, fun _ _ => some 0⟩, ⟨1, 1, fun _ _ => 0⟩,
    ⟨1, 1, fun _ _ => 0⟩, ⟨1, 1, fun _ _ => some 0⟩⟩

/-! ## Basic lemmas about the embedding -/

theorem amod_eq_self {α : Type} [LinearOrderedField α] [FloorRing α] {x m : α}
    (h0 : 0 ≤ x) (h1 : x < m) : amod x m = x := by
  have hm : 0 < m := lt_of_le_of_lt h0 h1
  have hfl : ⌊x / m⌋ = 0 := by
    rw [Int.floor_eq_zero_iff]
    exact ⟨div_nonneg h0 hm.le, (div_lt_one hm).mpr h1⟩
  simp [amod, hfl]

theorem amod_add_int_mul {α : Type} [LinearOrderedField α] [FloorRing α] {m : α}
    (hm : m ≠ 0) (x : α) (k : ℤ) : amod (x + m * k) m = amod x m := by
  unfold amod
  have hdiv : (x + m * k) / m = x / m + k := by
    field_simp
    ring
  rw [hdiv, Int.floor_add_int]
  push_cast
  ring

/-- Applying the `fliplr` angle correction `x ↦ (π − x) mod 2π` twice is
the identity on `[0, 2π)`. -/
theorem flip_angle_involutive {x : ℝ} (h0 : 0 ≤ x) (h1 : x < 2 * Real.pi) :
    amod (Real.pi - amod (Real.pi - x) (2 * Real.pi)) (2 * Real.pi) = x := by
  have hm : (2 * Real.pi) ≠ 0 := by positivity
  have hkey : Real.pi - amod (Real.pi - x) (2 * Real.pi)
      = x + (2 * Real.pi) * (⌊(Real.pi - x) / (2 * Real.pi)⌋ : ℤ) := by
    unfold amod; ring
  rw [hkey, amod_add_int_mul hm, amod_eq_self h0 h1]

/-- Applying the `rot180` angle correction `x ↦ (π + x) mod 2π` twice is
the identity on `[0, 2π)`. -/
theorem rot_angle_involutive {x : ℝ} (h0 : 0 ≤ x) (h1 : x < 2 * Real.pi) :
    amod (Real.pi + amod (Real.pi + x) (2 * Real.pi)) (2 * Real.pi) = x := by
  have hm : (2 * Real.pi) ≠ 0 := by positivity
  have hkey : Real.pi + amod (Real.pi + x) (2 * Real.pi)
      = x + (2 * Real.pi) * ((1 - ⌊(Real.pi + x) / (2 * Real.pi)⌋ : ℤ) : ℝ) := by
    unfold amod; push_cast; ring
  rw [hkey, amod_add_int_mul hm, amod_eq_self h0 h1]

/-! ## C7: antipodal invariance of the misorientation angle -/

/-- C7: the misorientation angle `arccos |v · w| · 180/π` computed by
`misorientation_profile` between two unit c-axis vectors is invariant
under negating either input vector. -/
theorem C7_misorientation_antipodal (v w : ℝ × ℝ × ℝ)
    (hv : dot3 v v = 1) (hw : dot3 w w = 1) :
    misAngleDeg v w = misAngleDeg v (neg3 w) ∧
    misAngleDeg v w = misAngleDeg (neg3 v) w := by
  have h1 : dot3 v (neg3 w) = -dot3 v w := by simp [dot3, neg3]; ring
  have h2 : dot3 (neg3 v) w = -dot3 v w := by simp [dot3, neg3]; ring
  constructor
  · rw [misAngleDeg, misAngleDeg, h1, abs_neg]
  · rw [misAngleDeg, misAngleDeg, h2, abs_neg]

/-- Witness for C7 at the unit vectors `(1,0,0)` and `(0,1,0)`. -/
theorem C7_misorientation_antipodal_witness :
    dot3 ((1 : ℝ), 0, 0) ((1 : ℝ), 0, 0) = 1 ∧
    dot3 ((0 : ℝ), 1, 0) ((0 : ℝ), 1, 0) = 1 ∧
    (misAngleDeg ((1 : ℝ), 0, 0) ((0 : ℝ), 1, 0)
        = misAngleDeg ((1 : ℝ), 0, 0) (neg3 ((0 : ℝ), 1, 0)) ∧
      misAngleDeg ((1 : ℝ), 0, 0) ((0 : ℝ), 1, 0)
        = misAngleDeg (neg3 ((1 : ℝ), 0, 0)) ((0 : ℝ), 1, 0)) :=
  ⟨by norm_num [dot3], by norm_num [dot3],
    C7_misorientation_antipodal ((1 : ℝ), 0, 0) ((0 : ℝ), 1, 0)
      (by norm_num [dot3]) (by norm_num [dot3])⟩

/-! ## C5: mirror and 180°-rotation are involutions on `phi1` -/

/-- C5: for a state whose `phi1` entries all lie in `[0, 2π)`, applying
`fliplr` (left-right array flip with `phi1 ← (π − phi1) mod 2π`) twice
restores every in-range `phi1` entry exactly, and applying `rot180`
(up-down and left-right flip with `phi1 ← (π + phi1) mod 2π`) twice does
as well. -/
theorem C5_flip_rot_involutive (s : AitaData ℝ)
    (hb : ∀ i j x, s.phi1.data i j = some x → 0 ≤ x ∧ x < 2 * Real.pi) :
    ∀ i j, i < s.phi1.rows → j < s.phi1.cols →
      (fliplrA Real.pi (fliplrA Real.pi s)).phi1.data i j = s.phi1.data i j ∧
      (rot180A Real.pi (rot180A Real.pi s)).phi1.data i j = s.phi1.data i j := by
  intro i j hi hj
  constructor
  · have hc : s.phi1.cols - 1 - (s.phi1.cols - 1 - j) = j := by omega
    simp only [fliplrA, gridMap, flipGridLR]
    rw [hc]
    cases hx : s.phi1.data i j with
    | none => simp
    | some x =>
      obtain ⟨h0, h1⟩ := hb i j x hx
      simp [flip_angle_involutive h0 h1]
  · have hc : s.phi1.cols - 1 - (s.phi1.cols - 1 - j) = j := by omega
    have hr : s.phi1.rows - 1 - (s.phi1.rows - 1 - i) = i := by omega
    simp only [rot180A, gridMap, flipGridUD, flipGridLR]
    rw [hr, hc]
    cases hx : s.phi1.data i j with
    | none => simp
    | some x =>
      obtain ⟨h0, h1⟩ := hb i j x hx
      simp [rot_angle_involutive h0 h1]

/-- Witness for C5 on the one-pixel state `flipDemo`. -/
theorem C5_flip_rot_involutive_witness :
    (fliplrA Real.pi (fliplrA Real.pi flipDemo)).phi1.data 0 0 = flipDemo.phi1.data 0 0 ∧
    (rot180A Real.pi (rot180A Real.pi flipDemo)).phi1.data 0 0 = flipDemo.phi1.data 0 0 :=
  C5_flip_rot_involutive flipDemo
    (by
      intro i j x hx
      simp only [flipDemo, Option.some_inj] at hx
      subst hx
      exact ⟨le_refl 0, by positivity⟩)
    0 0 (by simp [flipDemo]) (by simp [flipDemo])

/-! ## C6: sample count along the misorientation profile line -/

/-- Counterexample to C6 as stated: for the endpoints `(0,0)` and `(2,2)`
at resolution 1 the Euclidean pixel distance is `√8 ≈ 2.83`, whose
nearest integer is 3, but `np.int32(np.sqrt(...))` truncates and the code
takes `N = 2`. -/
theorem C6_counterexample :
    nb_pixel (((0 : ℝ), (0 : ℝ)), ((2 : ℝ), (2 : ℝ))) 1
      ≠ round (specPixelDistance (((0 : ℝ), (0 : ℝ)), ((2 : ℝ), (2 : ℝ))) 1) := by
  have hsq : Real.sqrt 8 ^ 2 = 8 := Real.sq_sqrt (by norm_num)
  have hnn : 0 ≤ Real.sqrt 8 := Real.sqrt_nonneg 8
  have hlo : (5 : ℝ) / 2 ≤ Real.sqrt 8 := by nlinarith
  have hhi : Real.sqrt 8 < 3 := by nlinarith
  have harg : ((2 : ℝ) / 1 - 0 / 1) ^ 2 + ((2 : ℝ) / 1 - 0 / 1) ^ 2 = 8 := by norm_num
  have harg' : ((2 : ℝ) - 0) ^ 2 + ((2 : ℝ) - 0) ^ 2 = 8 := by norm_num
  have htrunc : ∀ x : ℝ, 0 ≤ x → truncToZero x = ⌊x⌋ := by
    intro x hx
    simp [truncToZero, hx]
  have hleft : nb_pixel (((0 : ℝ), (0 : ℝ)), ((2 : ℝ), (2 : ℝ))) 1 = 2 := by
    rw [nb_pixel]
    simp only [harg]
    rw [htrunc _ hnn, Int.floor_eq_iff]
    constructor
    · push_cast; nlinarith
    · push_cast; nlinarith
  have hright : round (specPixelDistance (((0 : ℝ), (0 : ℝ)), ((2 : ℝ), (2 : ℝ))) 1) = 3 := by
    rw [specPixelDistance]
    simp only [harg', div_one]
    rw [round_eq, Int.floor_eq_iff]
    constructor
    · push_cast; nlinarith
    · push_cast; nlinarith
  rw [hleft, hright]
  decide

/-- C6 amended: the number of samples `N` along the segment is the
Euclidean pixel distance between the endpoints truncated to an integer
(floored — `np.int32` truncates toward zero), not rounded to the nearest
integer. -/
theorem C6_amended_truncated_distance (pos : (ℝ × ℝ) × (ℝ × ℝ)) (res : ℝ) (hres : 0 < res) :
    nb_pixel pos res = ⌊specPixelDistance pos res⌋ := by
  have hscale : (pos.2.2 / res - pos.1.2 / res) ^ 2 + (pos.2.1 / res - pos.1.1 / res) ^ 2
      = ((pos.2.2 - pos.1.2) ^ 2 + (pos.2.1 - pos.1.1) ^ 2) / res ^ 2 := by
    field_simp
  rw [nb_pixel, specPixelDistance, hscale,
    Real.sqrt_div (by positivity) (res ^ 2), Real.sqrt_sq hres.le]
  simp [truncToZero, Real.sqrt_nonneg, div_nonneg (Real.sqrt_nonneg _) hres.le]

/-- Witness for the amended C6 at the endpoints `(0,0)` and `(3,4)` with
resolution 1. -/
theorem C6_amended_truncated_distance_witness :
    (0 : ℝ) < 1 ∧
    nb_pixel (((0 : ℝ), (0 : ℝ)), ((3 : ℝ), (4 : ℝ))) 1
      = ⌊specPixelDistance (((0 : ℝ), (0 : ℝ)), ((3 : ℝ), (4 : ℝ))) 1⌋ :=
  ⟨by norm_num,
    C6_amended_truncated_distance (((0 : ℝ), (0 : ℝ)), ((3 : ℝ), (4 : ℝ))) 1 (by norm_num)⟩

/-! ## C2: orientation-tensor analysis over zero defined samples -/

theorem nanmean_all_none {α : Type} [LinearOrderedField α] (xs : List (Option α))
    (h : ∀ x ∈ xs, x = none) : nanmean xs = none := by
  have hnil : xs.filterMap id = [] := by
    rw [List.filterMap_eq_nil_iff]
    intro a ha
    rw [h a ha]
    rfl
  simp [nanmean, hnil]

theorem zipWith_omul_none_left {α : Type} [Mul α] (xs ys : List (Option α))
    (h : ∀ x ∈ xs, x = none) : ∀ z ∈ List.zipWith omul xs ys, z = none := by
  induction xs generalizing ys with
  | nil => simp
  | cons x xs ih =>
    cases ys with
    | nil => simp
    | cons y ys =>
      intro z hz
      rw [List.zipWith_cons_cons] at hz
      rcases List.mem_cons.1 hz with hz | hz
      · subst hz
        rw [h x (List.mem_cons_self x xs)]
        cases y <;> rfl
      · exact ih ys (fun a ha => h a (List.mem_cons_of_mem x ha)) z hz

theorem xcOf_undefined {p1 p : Option ℝ} (h : p1 = none ∨ p = none) : xcOf p1 p = none := by
  rcases h with h | h <;> subst h
  · rfl
  · cases p1 <;> rfl

theorem ycOf_undefined {p1 p : Option ℝ} (h : p1 = none ∨ p = none) : ycOf p1 p = none := by
  rcases h with h | h <;> subst h
  · rfl
  · cases p1 <;> rfl

/-- C2: when every sample of `plotpdf`'s input has an undefined c-axis
vector (its `phi1` or `phi` is NaN), the orientation tensor entries built
from `xc` and `yc` are all NaN (`np.nanmean` of an empty defined set),
and the tensor handed to `np.linalg.eig` fails numpy's finiteness guard.
The source contains no `EmptySampleSet` condition: it silently builds the
NaN tensor and the failure surfaces as a generic `LinAlgError` raised
inside `np.linalg.eig`, not as the dedicated error the claim names. -/
theorem C2_empty_sample_tensor (samples : List (Option ℝ × Option ℝ))
    (h : ∀ p ∈ samples, p.1 = none ∨ p.2 = none) :
    (computeOrientationTensor samples).a11 = none ∧
    (computeOrientationTensor samples).a22 = none ∧
    (computeOrientationTensor samples).a12 = none ∧
    (computeOrientationTensor samples).a13 = none ∧
    (computeOrientationTensor samples).a23 = none ∧
    tensorAllFinite (computeOrientationTensor samples) = false := by
  have hxc : ∀ x ∈ samples.map (fun s => xcOf s.1 s.2), x = none := by
    intro x hx
    obtain ⟨p, hp, rfl⟩ := List.mem_map.1 hx
    exact xcOf_undefined (h p hp)
  have hyc : ∀ x ∈ samples.map (fun s => ycOf s.1 s.2), x = none := by
    intro x hx
    obtain ⟨p, hp, rfl⟩ := List.mem_map.1 hx
    exact ycOf_undefined (h p hp)
  have h11 : (computeOrientationTensor samples).a11 = none :=
    nanmean_all_none _ (zipWith_omul_none_left _ _ hxc)
  have h22 : (computeOrientationTensor samples).a22 = none :=
    nanmean_all_none _ (zipWith_omul_none_left _ _ hyc)
  have h12 : (computeOrientationTensor samples).a12 = none :=
    nanmean_all_none _ (zipWith_omul_none_left _ _ hxc)
  have h13 : (computeOrientationTensor samples).a13 = none :=
    nanmean_all_none _ (zipWith_omul_none_left _ _ hxc)
  have h23 : (computeOrientationTensor samples).a23 = none :=
    nanmean_all_none _ (zipWith_omul_none_left _ _ hyc)
  refine ⟨h11, h22, h12, h13, h23, ?_⟩
  simp [tensorAllFinite, h11]

/-- Witness for C2 at the failing input: a single sample whose two Euler
angles are both NaN. -/
theorem C2_empty_sample_tensor_witness :
    (computeOrientationTensor [((none : Option ℝ), (none : Option ℝ))]).a11 = none ∧
    (computeOrientationTensor [((none : Option ℝ), (none : Option ℝ))]).a22 = none ∧
    (computeOrientationTensor [((none : Option ℝ), (none : Option ℝ))]).a12 = none ∧
    (computeOrientationTensor [((none : Option ℝ), (none : Option ℝ))]).a13 = none ∧
    (computeOrientationTensor [((none : Option ℝ), (none : Option ℝ))]).a23 = none ∧
    tensorAllFinite (computeOrientationTensor [((none : Option ℝ), (none : Option ℝ))])
      = false :=
  C2_empty_sample_tensor [((none : Option ℝ), (none : Option ℝ))] (by simp)

/-! ## The healing pass of `craft` (C1 and C3) -/

theorem donor_ne (i : ℕ) : donor i ≠ i := by
  unfold donor
  split <;> omega

theorem mem_rowMajor {r c i j : ℕ} : (i, j) ∈ rowMajor r c ↔ i < r ∧ j < c := by
  constructor
  · intro h
    simp only [rowMajor, List.mem_flatten, List.mem_map] at h
    obtain ⟨l, ⟨a, ha, rfl⟩, hmem⟩ := h
    obtain ⟨b, hb, heq⟩ := List.mem_map.1 hmem
    obtain ⟨rfl, rfl⟩ := Prod.mk.injEq .. ▸ heq
    exact ⟨List.mem_range.1 ha, List.mem_range.1 hb⟩
  · rintro ⟨hi, hj⟩
    simp only [rowMajor, List.mem_flatten, List.mem_map]
    exact ⟨(List.range c).map (fun b => (i, b)), ⟨i, List.mem_range.2 hi, rfl⟩,
      List.mem_map.2 ⟨j, List.mem_range.2 hj, rfl⟩⟩

theorem healPassStep_ne {α : Type} (s : AitaData α) (p : ℕ × ℕ) (a b : ℕ)
    (hne : (a, b) ≠ p) :
    (healPassStep s p).grains.data a b = s.grains.data a b ∧
    (healPassStep s p).phi1.data a b = s.phi1.data a b ∧
    (healPassStep s p).phi.data a b = s.phi.data a b := by
  have hcond : ¬(a = p.1 ∧ b = p.2) := by
    rintro ⟨h1, h2⟩
    apply hne
    cases p
    simp_all
  simp [healPassStep, writeG, hcond]

theorem healPassStep_self {α : Type} (s : AitaData α) (p : ℕ × ℕ) :
    (healPassStep s p).grains.data p.1 p.2 = s.grains.data (donor p.1) (donor p.2) ∧
    (healPassStep s p).phi1.data p.1 p.2 = s.phi1.data (donor p.1) (donor p.2) ∧
    (healPassStep s p).phi.data p.1 p.2 = s.phi.data (donor p.1) (donor p.2) := by
  simp [healPassStep, writeG]

theorem healFold_not_mem {α : Type} (p : ℕ × ℕ) :
    ∀ (L : List (ℕ × ℕ)) (s : AitaData α), p ∉ L →
      (L.foldl healPassStep s).grains.data p.1 p.2 = s.grains.data p.1 p.2 ∧
      (L.foldl healPassStep s).phi1.data p.1 p.2 = s.phi1.data p.1 p.2 ∧
      (L.foldl healPassStep s).phi.data p.1 p.2 = s.phi.data p.1 p.2 := by
  intro L
  induction L with
  | nil => exact fun s _ => ⟨rfl, rfl, rfl⟩
  | cons q L ih =>
    intro s hp
    have hq : (p.1, p.2) ≠ q := by
      cases p
      exact fun h => hp (h ▸ List.mem_cons_self q L)
    have hstep := healPassStep_ne s q p.1 p.2 hq
    have hrest := ih (healPassStep s q) (fun h => hp (List.mem_cons_of_mem q h))
    exact ⟨hrest.1.trans hstep.1, hrest.2.1.trans hstep.2.1, hrest.2.2.trans hstep.2.2⟩

theorem healFold_mem {α : Type} (p : ℕ × ℕ) :
    ∀ (L : List (ℕ × ℕ)) (s : AitaData α), (donor p.1, donor p.2) ∉ L → p ∈ L →
      (L.foldl healPassStep s).grains.data p.1 p.2 = s.grains.data (donor p.1) (donor p.2) ∧
      (L.foldl healPassStep s).phi1.data p.1 p.2 = s.phi1.data (donor p.1) (donor p.2) ∧
      (L.foldl healPassStep s).phi.data p.1 p.2 = s.phi.data (donor p.1) (donor p.2) := by
  intro L
  induction L with
  | nil => intro s _ h; simp at h
  | cons q L ih =>
    intro s hd hmem
    have hdL : (donor p.1, donor p.2) ∉ L := fun h => hd (List.mem_cons_of_mem q h)
    have hdq : (donor p.1, donor p.2) ≠ q := fun h => hd (h ▸ List.mem_cons_self q L)
    have hdonor := healPassStep_ne s q (donor p.1) (donor p.2) hdq
    rw [List.foldl_cons]
    by_cases hpq : p = q
    · subst hpq
      have hwrite := healPassStep_self s p
      by_cases hpL : p ∈ L
      · have hres := ih (healPassStep s p) hdL hpL
        exact ⟨hres.1.trans hdonor.1, hres.2.1.trans hdonor.2.1, hres.2.2.trans hdonor.2.2⟩
      · have hres := healFold_not_mem p L (healPassStep s p) hpL
        exact ⟨hres.1.trans hwrite.1, hres.2.1.trans hwrite.2.1, hres.2.2.trans hwrite.2.2⟩
    · have hpL : p ∈ L := by
        rcases List.mem_cons.1 hmem with h | h
        · exact absurd h hpq
        · exact h
      have hres := ih (healPassStep s q) hdL hpL
      exact ⟨hres.1.trans hdonor.1, hres.2.1.trans hdonor.2.1, hres.2.2.trans hdonor.2.2⟩

/-- C3: in one healing pass of `craft`, every pixel that is undefined at
the start of the pass and whose donor pixel
`(i+1 if i==0 else i−1, j+1 if j==0 else j−1)` is defined receives the
donor's grain label and both orientation angles; in particular on the
4×4 field `healDemo44` with a single undefined pixel at `(1,1)`, the pass
copies the value of pixel `(0,0)` into `(1,1)`. -/
theorem C3_heal_donor_rule :
    (∀ (α : Type) (s : AitaData α) (i j l : ℕ),
      i < s.grains.rows → j < s.grains.cols →
      s.grains.data i j = none →
      s.grains.data (donor i) (donor j) = some l →
      (healPass s).grains.data i j = s.grains.data (donor i) (donor j) ∧
      (healPass s).phi1.data i j = s.phi1.data (donor i) (donor j) ∧
      (healPass s).phi.data i j = s.phi.data (donor i) (donor j)) ∧
    ((healPass healDemo44).phi1.data 1 1 = healDemo44.phi1.data 0 0 ∧
      (healPass healDemo44).phi.data 1 1 = healDemo44.phi.data 0 0 ∧
      (healPass healDemo44).grains.data 1 1 = healDemo44.grains.data 0 0) := by
  constructor
  · intro α s i j l hi hj hnan hdon
    have hmem : (i, j) ∈ healIdx s.grains := by
      simp only [healIdx, List.mem_filter, mem_rowMajor]
      exact ⟨⟨hi, hj⟩, by simp [hnan]⟩
    have hnot : (donor i, donor j) ∉ healIdx s.grains := by
      simp only [healIdx, List.mem_filter]
      rintro ⟨-, hcontra⟩
      simp [hdon] at hcontra
    exact healFold_mem (i, j) (healIdx s.grains) s hnot hmem
  · refine ⟨?_, ?_, ?_⟩ <;> rfl

/-- Witness for the general part of C3, instantiated on `healDemo44` at
the undefined pixel `(1,1)` (donor `(0,0)`, label 0). -/
theorem C3_heal_donor_rule_witness :
    (healPass healDemo44).grains.data 1 1 = healDemo44.grains.data (donor 1) (donor 1) ∧
    (healPass healDemo44).phi1.data 1 1 = healDemo44.phi1.data (donor 1) (donor 1) ∧
    (healPass healDemo44).phi.data 1 1 = healDemo44.phi.data (donor 1) (donor 1) :=
  C3_heal_donor_rule.1 ℚ healDemo44 1 1 0 (by decide) (by decide) (by decide) (by decide)

theorem healPassStep_allnone {α : Type} (s : AitaData α)
    (h : ∀ i j, s.grains.data i j = none) (p : ℕ × ℕ) :
    ∀ i j, (healPassStep s p).grains.data i j = none := by
  intro i j
  simp only [healPassStep, writeG]
  split
  · exact h _ _
  · exact h _ _

theorem healFold_allnone {α : Type} :
    ∀ (L : List (ℕ × ℕ)) (s : AitaData α), (∀ i j, s.grains.data i j = none) →
      ∀ i j, (L.foldl healPassStep s).grains.data i j = none := by
  intro L
  induction L with
  | nil => exact fun s h => h
  | cons q L ih => exact fun s h => ih (healPassStep s q) (healPassStep_allnone s h q)

theorem healFold_dims {α : Type} :
    ∀ (L : List (ℕ × ℕ)) (s : AitaData α),
      (L.foldl healPassStep s).grains.rows = s.grains.rows ∧
      (L.foldl healPassStep s).grains.cols = s.grains.cols := by
  intro L
  induction L with
  | nil => exact fun s => ⟨rfl, rfl⟩
  | cons q L ih => exact fun s => ih (healPassStep s q)

theorem healIdx_of_allnone {g : Grid (Option ℕ)} (hr : g.rows = 2) (hc : g.cols = 2)
    (h : ∀ i j, g.data i j = none) : healIdx g = rowMajor 2 2 := by
  rw [healIdx, hr, hc]
  apply List.filter_eq_self.mpr
  intro a _
  simp [h]

/-- C1: on a field whose grain-label map is entirely NaN, the healing
`while` loop of `craft` never terminates.  After every pass the label
field is still entirely NaN, `idx = np.where(np.isnan(...))` still holds
all 4 pixel positions, so the loop guard `np.size(idx) > 0` stays true
forever; the source defines no `HealingDidNotConverge` (nor any
non-progress check), so no exception is ever raised. -/
theorem C1_healing_never_terminates :
    ∀ n : ℕ,
      (∀ i j, (healPass^[n] allNaN22).grains.data i j = none) ∧
      healIdx (healPass^[n] allNaN22).grains = rowMajor 2 2 ∧
      (healIdx (healPass^[n] allNaN22).grains).length = 4 ∧
      healIdx (healPass^[n] allNaN22).grains ≠ [] := by
  have key : ∀ n : ℕ,
      (∀ i j, (healPass^[n] allNaN22).grains.data i j = none) ∧
      (healPass^[n] allNaN22).grains.rows = 2 ∧ (healPass^[n] allNaN22).grains.cols = 2 := by
    intro n
    induction n with
    | zero => exact ⟨fun i j => rfl, rfl, rfl⟩
    | succ n ih =>
      rw [Function.iterate_succ_apply']
      refine ⟨healFold_allnone _ _ ih.1, ?_, ?_⟩
      · exact (healFold_dims _ _).1.trans ih.2.1
      · exact (healFold_dims _ _).2.trans ih.2.2
  intro n
  obtain ⟨hdata, hr, hc⟩ := key n
  have hidx := healIdx_of_allnone hr hc hdata
  refine ⟨hdata, hidx, ?_, ?_⟩
  · rw [hidx]; decide
  · rw [hidx]; decide

/-- Witness for C1 after 3 passes: the field is still entirely undefined
and the loop guard is still satisfied. -/
theorem C1_healing_never_terminates_witness :
    (healPass^[3] allNaN22).grains.data 0 0 = none ∧
    (healIdx (healPass^[3] allNaN22).grains).length = 4 ∧
    healIdx (healPass^[3] allNaN22).grains ≠ [] :=
  ⟨(C1_healing_never_terminates 3).1 0 0, (C1_healing_never_terminates 3).2.2.1,
    (C1_healing_never_terminates 3).2.2.2⟩

/-! ## C4: per-grain orientation averaging -/

theorem meanFold_grains {α : Type} [LinearOrderedField α] :
    ∀ (L : List ℕ) (t : AitaData α),
      (L.foldl grainUpdate t).grains = t.grains ∧ (L.foldl grainUpdate t).micro = t.micro := by
  intro L
  induction L with
  | nil => exact fun t => ⟨rfl, rfl⟩
  | cons q L ih => exact fun t => ih (grainUpdate t q)

theorem grainUpdate_ne {α : Type} [LinearOrderedField α] (t : AitaData α) (q a b : ℕ)
    (h : t.grains.data a b ≠ some q) :
    (grainUpdate t q).phi1.data a b = t.phi1.data a b ∧
    (grainUpdate t q).phi.data a b = t.phi.data a b := by
  have hcond : ¬(a < t.grains.rows ∧ b < t.grains.cols ∧ t.grains.data a b = some q) := by
    rintro ⟨-, -, hc⟩
    exact h hc
  simp [grainUpdate, setWhereLabel, hcond]

theorem grainUpdate_self {α : Type} [LinearOrderedField α] (t : AitaData α) (l a b : ℕ)
    (ha : a < t.grains.rows) (hb : b < t.grains.cols) (h : t.grains.data a b = some l) :
    (grainUpdate t l).phi1.data a b = nanmean (fieldVals t.phi1 (labelPositions t l)) ∧
    (grainUpdate t l).phi.data a b = nanmean (fieldVals t.phi (labelPositions t l)) := by
  simp [grainUpdate, setWhereLabel, ha, hb, h]

theorem meanFold_untouched {α : Type} [LinearOrderedField α] (a b : ℕ) :
    ∀ (L : List ℕ) (t : AitaData α), (∀ q ∈ L, t.grains.data a b ≠ some q) →
      (L.foldl grainUpdate t).phi1.data a b = t.phi1.data a b ∧
      (L.foldl grainUpdate t).phi.data a b = t.phi.data a b := by
  intro L
  induction L with
  | nil => exact fun t _ => ⟨rfl, rfl⟩
  | cons q L ih =>
    intro t h
    have hstep := grainUpdate_ne t q a b (h q (List.mem_cons_self q L))
    have hrest := ih (grainUpdate t q) (fun q' hq' => h q' (List.mem_cons_of_mem q hq'))
    exact ⟨hrest.1.trans hstep.1, hrest.2.trans hstep.2⟩

theorem le_foldr_max (x : ℕ) : ∀ xs : List ℕ, x ∈ xs → x ≤ xs.foldr max 0 := by
  intro xs
  induction xs with
  | nil => intro h; simp at h
  | cons y ys ih =>
    intro h
    rcases List.mem_cons.1 h with rfl | h
    · exact le_max_left _ _
    · exact (ih h).trans (le_max_right _ _)

theorem label_le_nbGrain {α : Type} (s : AitaData α) {i j l : ℕ}
    (hi : i < s.grains.rows) (hj : j < s.grains.cols) (h : s.grains.data i j = some l) :
    l ≤ nbGrain s :=
  le_foldr_max l _ (List.mem_filterMap.2 ⟨(i, j), mem_rowMajor.2 ⟨hi, hj⟩, h⟩)

theorem mem_labelPositions {α : Type} {s : AitaData α} {l : ℕ} {p : ℕ × ℕ}
    (hp : p ∈ labelPositions s l) : s.grains.data p.1 p.2 = some l := by
  have := (List.mem_filter.1 hp).2
  simpa using this

/-- General behaviour of `mean_grain` at a labelled pixel: the final
`phi1` (resp. `phi`) value is the `nanmean` — the plain arithmetic mean
of the non-NaN values — of the original field over the in-range pixels
carrying the same label. -/
theorem mean_grain_at_label {α : Type} [LinearOrderedField α] (s : AitaData α) (i j l : ℕ)
    (hi : i < s.grains.rows) (hj : j < s.grains.cols) (h : s.grains.data i j = some l) :
    (mean_grain s).phi1.data i j = nanmean (fieldVals s.phi1 (labelPositions s l)) ∧
    (mean_grain s).phi.data i j = nanmean (fieldVals s.phi (labelPositions s l)) := by
  have hl : l ≤ nbGrain s := label_le_nbGrain s hi hj h
  have hsplit : List.range (nbGrain s + 1)
      = List.range l ++ l :: ((List.range (nbGrain s - l)).map (fun x => l + (x + 1))) := by
    have h1 : nbGrain s + 1 = l + (nbGrain s - l + 1) := by omega
    rw [h1, List.range_add, List.range_succ_eq_map, List.map_cons, List.map_map]
    congr 1
  rw [mean_grain, hsplit, List.foldl_append, List.foldl_cons]
  set t1 := (List.range l).foldl grainUpdate s with ht1
  have hg1 : t1.grains = s.grains := (meanFold_grains _ s).1
  have hphase1 : ∀ a b : ℕ, s.grains.data a b = some l →
      t1.phi1.data a b = s.phi1.data a b ∧ t1.phi.data a b = s.phi.data a b := by
    intro a b hab
    apply meanFold_untouched a b (List.range l) s
    intro q hq hc
    rw [hab] at hc
    have heq : l = q := by injection hc
    have hql : q < l := List.mem_range.1 hq
    omega
  have hlab : labelPositions t1 l = labelPositions s l := by
    unfold labelPositions
    rw [hg1]
  have hvals1 : fieldVals t1.phi1 (labelPositions s l) = fieldVals s.phi1 (labelPositions s l) := by
    apply List.map_congr_left
    intro p hp
    exact (hphase1 p.1 p.2 (mem_labelPositions hp)).1
  have hvals2 : fieldVals t1.phi (labelPositions s l) = fieldVals s.phi (labelPositions s l) := by
    apply List.map_congr_left
    intro p hp
    exact (hphase1 p.1 p.2 (mem_labelPositions hp)).2
  have hi1 : i < t1.grains.rows := by rw [hg1]; exact hi
  have hj1 : j < t1.grains.cols := by rw [hg1]; exact hj
  have hij1 : t1.grains.data i j = some l := by rw [hg1]; exact h
  have hstep := grainUpdate_self t1 l i j hi1 hj1 hij1
  have hg2 : (grainUpdate t1 l).grains = s.grains := hg1
  have htail := meanFold_untouched i j
      ((List.range (nbGrain s - l)).map (fun x => l + (x + 1))) (grainUpdate t1 l)
      (by
        intro q hq hc
        rw [hg2, h] at hc
        have heq : l = q := by injection hc
        obtain ⟨x, -, rfl⟩ := List.mem_map.1 hq
        omega)
  constructor
  · rw [htail.1, hstep.1, hlab, hvals1]
  · rw [htail.2, hstep.2, hlab, hvals2]

/-- The method `mean_grain` leaves boundary (NaN-labelled) pixels completely alone:
their orientation values are unchanged and their label stays NaN. -/
theorem mean_grain_at_boundary {α : Type} [LinearOrderedField α] (s : AitaData α) (i j : ℕ)
    (h : s.grains.data i j = none) :
    (mean_grain s).phi1.data i j = s.phi1.data i j ∧
    (mean_grain s).phi.data i j = s.phi.data i j ∧
    (mean_grain s).grains.data i j = none := by
  have h1 := meanFold_untouched i j (List.range (nbGrain s + 1)) s
    (by intro q _ hc; rw [h] at hc; exact Option.noConfusion hc)
  have h2 : (mean_grain s).grains = s.grains := (meanFold_grains _ s).1
  exact ⟨h1.1, h1.2, by rw [mean_grain] at h2 ⊢; rw [h2, h]⟩

/-- C4: `mean_grain` assigns to every pixel of a grain the plain
arithmetic mean (`np.nanmean`) of `phi1` (and of `phi`) over the non-NaN
values at pixels carrying the grain's label; boundary pixels (NaN label)
are excluded from every average and left untouched, their label staying
undefined.  On the two-grain scenario `meanDemo13`, label-0 pixels all
become `1/10` and the label-1 pixel keeps `3`. -/
theorem C4_mean_grain :
    (∀ (α : Type) (inst : LinearOrderedField α) (s : AitaData α) (i j l : ℕ),
      i < s.grains.rows → j < s.grains.cols → s.grains.data i j = some l →
      (mean_grain s).phi1.data i j = nanmean (fieldVals s.phi1 (labelPositions s l)) ∧
      (mean_grain s).phi.data i j = nanmean (fieldVals s.phi (labelPositions s l))) ∧
    (∀ (α : Type) (inst : LinearOrderedField α) (s : AitaData α) (i j : ℕ),
      s.grains.data i j = none →
      (mean_grain s).phi1.data i j = s.phi1.data i j ∧
      (mean_grain s).phi.data i j = s.phi.data i j ∧
      (mean_grain s).grains.data i j = none) ∧
    ((mean_grain meanDemo13).phi1.data 0 0 = some (1 / 10) ∧
      (mean_grain meanDemo13).phi1.data 0 1 = some (1 / 10) ∧
      (mean_grain meanDemo13).phi1.data 0 2 = some 3) := by
  refine ⟨?_, ?_, ?_, ?_, ?_⟩
  · intro α inst s i j l hi hj h
    exact mean_grain_at_label s i j l hi hj h
  · intro α inst s i j h
    exact mean_grain_at_boundary s i j h
  · rw [(mean_grain_at_label meanDemo13 0 0 0 (by decide) (by decide) rfl).1]
    have hlp : labelPositions meanDemo13 0 = [(0, 0), (0, 1)] := rfl
    have hfv : fieldVals meanDemo13.phi1 [(0, 0), (0, 1)] = [some 0, some (1 / 5)] := rfl
    rw [hlp, hfv]
    norm_num [nanmean, List.filterMap_cons, List.filterMap_nil, id_eq, List.sum_cons,
      List.sum_nil, List.length_cons, List.length_nil]
  · rw [(mean_grain_at_label meanDemo13 0 1 0 (by decide) (by decide) rfl).1]
    have hlp : labelPositions meanDemo13 0 = [(0, 0), (0, 1)] := rfl
    have hfv : fieldVals meanDemo13.phi1 [(0, 0), (0, 1)] = [some 0, some (1 / 5)] := rfl
    rw [hlp, hfv]
    norm_num [nanmean, List.filterMap_cons, List.filterMap_nil, id_eq, List.sum_cons,
      List.sum_nil, List.length_cons, List.length_nil]
  · rw [(mean_grain_at_label meanDemo13 0 2 1 (by decide) (by decide) rfl).1]
    have hlp : labelPositions meanDemo13 1 = [(0, 2)] := rfl
    have hfv : fieldVals meanDemo13.phi1 [(0, 2)] = [some 3] := rfl
    rw [hlp, hfv]
    norm_num [nanmean, List.filterMap_cons, List.filterMap_nil, id_eq, List.sum_cons,
      List.sum_nil, List.length_cons, List.length_nil]

/-- Witness for C4 on `meanDemo13`: the labelled-pixel clause at pixel
`(0,0)` (label 0) and the boundary clause applied to a state with a
NaN-labelled pixel. -/
theorem C4_mean_grain_witness :
    (mean_grain meanDemo13).phi1.data 0 0
      = nanmean (fieldVals meanDemo13.phi1 (labelPositions meanDemo13 0)) ∧
    (mean_grain meanDemo13).phi.data 0 0
      = nanmean (fieldVals meanDemo13.phi (labelPositions meanDemo13 0)) :=
  C4_mean_grain.1 ℚ inferInstance meanDemo13 0 0 0 (by decide) (by decide) (by decide)

/-! ## C8: boundary pixels always carry an undefined grain label -/

/-- C8: the invariant "mask = 1 implies grain label undefined" is
established by the constructor and by `crop` (both overwrite the label
field with NaN wherever `micro == 1`), and is preserved by `fliplr`,
`rot180` (which permute mask and label field identically) and by
`mean_grain` (which touches neither).  The flip/rotation parts assume the
label grid has the same dimensions as the mask, as every constructed
state satisfies. -/
theorem C8_boundary_invariant {α : Type} [LinearOrderedField α] [FloorRing α] :
    (∀ (p1 p : Grid (Option α)) (q : Grid α) (micro labels : Grid ℕ),
      BoundaryInv (aita_init p1 p q micro labels)) ∧
    (∀ (s : AitaData α) (ymin ymax xmin xmax : ℕ) (labels : Grid ℕ),
      BoundaryInv (crop s ymin ymax xmin xmax labels)) ∧
    (∀ (pi : α) (s : AitaData α), s.grains.cols = s.micro.cols →
      BoundaryInv s → BoundaryInv (fliplrA pi s)) ∧
    (∀ (pi : α) (s : AitaData α), s.grains.rows = s.micro.rows →
      s.grains.cols = s.micro.cols → BoundaryInv s → BoundaryInv (rot180A pi s)) ∧
    (∀ s : AitaData α, BoundaryInv s → BoundaryInv (mean_grain s)) := by
  refine ⟨?_, ?_, ?_, ?_, ?_⟩
  · intro p1 p q micro labels i j _ _ hmic
    simp only [aita_init] at hmic ⊢
    simp [grainLabelToGrains, hmic]
  · intro s ymin ymax xmin xmax labels i j _ _ hmic
    simp only [crop] at hmic ⊢
    simp [grainLabelToGrains, hmic]
  · intro pi s hcols hinv i j hi hj hmic
    simp only [fliplrA, flipGridLR] at hi hj hmic ⊢
    have hj' : s.micro.cols - 1 - j < s.micro.cols := by omega
    have hnone := hinv i (s.micro.cols - 1 - j) hi hj' hmic
    rw [hcols]
    exact hnone
  · intro pi s hrows hcols hinv i j hi hj hmic
    simp only [rot180A, flipGridUD, flipGridLR] at hi hj hmic ⊢
    have hi' : s.micro.rows - 1 - i < s.micro.rows := by omega
    have hj' : s.micro.cols - 1 - j < s.micro.cols := by omega
    have hnone := hinv (s.micro.rows - 1 - i) (s.micro.cols - 1 - j) hi' hj' hmic
    rw [hrows, hcols]
    exact hnone
  · intro s hinv i j hi hj hmic
    have hg : (mean_grain s).grains = s.grains := (meanFold_grains _ s).1
    have hm : (mean_grain s).micro = s.micro := (meanFold_grains _ s).2
    rw [hm] at hi hj hmic
    rw [hg]
    exact hinv i j hi hj hmic

/-- Witness for C8: all five clauses instantiated on `invDemo`. -/
theorem C8_boundary_invariant_witness :
    BoundaryInv (aita_init invDemo.phi1 invDemo.phi invDemo.qua invDemo.micro invDemo.micro) ∧
    BoundaryInv (crop invDemo 0 1 0 1 invDemo.micro) ∧
    BoundaryInv (fliplrA (0 : ℚ) invDemo) ∧
    BoundaryInv (rot180A (0 : ℚ) invDemo) ∧
    BoundaryInv (mean_grain invDemo) := by
  have hinv : BoundaryInv invDemo := by
    intro i j _ _ h
    simp [invDemo] at h
  exact ⟨C8_boundary_invariant.1 invDemo.phi1 invDemo.phi invDemo.qua invDemo.micro invDemo.micro,
    C8_boundary_invariant.2.1 invDemo 0 1 0 1 invDemo.micro,
    C8_boundary_invariant.2.2.1 0 invDemo rfl hinv,
    C8_boundary_invariant.2.2.2.1 0 invDemo rfl rfl hinv,
    C8_boundary_invariant.2.2.2.2 invDemo hinv⟩

/-! ## C9 and C10: the quality filter -/

/-- C9: `filter(value)` nulls only the orientation fields `phi1` and
`phi`, exactly at the pixels whose quality is strictly below the
threshold; the quality field, the microstructure mask and the grain-label
field are untouched. -/
theorem C9_filter_frame {α : Type} [LinearOrderedField α] (s : AitaData α) (value : α) :
    (filterQ s value).qua = s.qua ∧
    (filterQ s value).micro = s.micro ∧
    (filterQ s value).grains = s.grains ∧
    (∀ i j, i < s.qua.rows → j < s.qua.cols →
      (s.qua.data i j < value →
        (filterQ s value).phi1.data i j = none ∧ (filterQ s value).phi.data i j = none) ∧
      (¬ s.qua.data i j < value →
        (filterQ s value).phi1.data i j = s.phi1.data i j ∧
        (filterQ s value).phi.data i j = s.phi.data i j)) := by
  refine ⟨rfl, rfl, rfl, fun i j hi hj => ⟨fun h => ?_, fun h => ?_⟩⟩
  · simp [filterQ, hi, hj, h]
  · simp [filterQ, h]

/-- Witness for C9 on `filterDemo` with threshold 50. -/
theorem C9_filter_frame_witness :
    (filterQ filterDemo 50).qua = filterDemo.qua ∧
    ((filterQ filterDemo 50).phi1.data 0 0 = none ∧
      (filterQ filterDemo 50).phi.data 0 0 = none) :=
  ⟨(C9_filter_frame filterDemo 50).1,
    ((C9_filter_frame filterDemo 50).2.2.2 0 0 (by decide) (by decide)).1 (by decide)⟩

/-- C10: the quality comparison of `filter(value)` is strict
(`np.where(self.qua.field < value)`): a pixel whose quality equals the
threshold keeps its orientation; only strictly-lower quality pixels are
nulled. -/
theorem C10_filter_strict {α : Type} [LinearOrderedField α] (s : AitaData α) (value : α)
    (i j : ℕ) (hi : i < s.qua.rows) (hj : j < s.qua.cols) :
    (s.qua.data i j = value →
      (filterQ s value).phi1.data i j = s.phi1.data i j ∧
      (filterQ s value).phi.data i j = s.phi.data i j) ∧
    (s.qua.data i j < value →
      (filterQ s value).phi1.data i j = none ∧ (filterQ s value).phi.data i j = none) := by
  constructor
  · intro h
    have hlt : ¬ s.qua.data i j < value := by rw [h]; exact lt_irrefl value
    simp [filterQ, hlt]
  · intro h
    simp [filterQ, hi, hj, h]

/-- Witness for C10 on `filterDemo`: the pixel whose quality is exactly
the threshold 50 keeps its orientation, the one strictly below loses
it. -/
theorem C10_filter_strict_witness :
    (filterDemo.qua.data 0 1 = 50 →
      (filterQ filterDemo 50).phi1.data 0 1 = filterDemo.phi1.data 0 1 ∧
      (filterQ filterDemo 50).phi.data 0 1 = filterDemo.phi.data 0 1) ∧
    (filterDemo.qua.data 0 1 < 50 →
      (filterQ filterDemo 50).phi1.data 0 1 = none ∧
      (filterQ filterDemo 50).phi.data 0 1 = none) :=
  C10_filter_strict filterDemo 50 0 1 (by decide) (by decide)

end AitaModel
